import Mathlib

/-!
Verification of the podcastify headline pipeline: a shallow embedding of
`update_daily_urls.py`, `post_to_twitter.py`, `send_push_notification.py`
and `generate_podcast_workflow.py`, together with theorems settling the
specification's testable properties.

Python string operations are modelled over `List Char` (Python's `len`,
slicing and `in` operate on code points, which `String.data` captures
exactly).
-/

namespace Podcastify

/-! ### Python string primitives -/

/-- Python whitespace test used by `str.strip()`. -/
def wsp (c : Char) : Bool := c.isWhitespace

/-- `str.strip()` on the underlying character list. -/
def stripData (l : List Char) : List Char :=
  ((l.dropWhile wsp).reverse.dropWhile wsp).reverse

/-- Python `s.strip()`. -/
def pyStrip (s : String) : String := ⟨stripData s.data⟩

/-- Python `s.startswith(pre)`. -/
def pyStartsWith (s pre : String) : Bool := pre.data.isPrefixOf s.data

/-- Python `pat in s` (substring containment). -/
def pyContains (pat s : String) : Bool := decide (pat.data <:+: s.data)

/-- Python `s[:n]` (slice of the first `n` code points). -/
def pyTake (s : String) (n : Nat) : String := ⟨s.data.take n⟩

/-- Python `sep.join(l)`. -/
def pyJoin (sep : String) (l : List String) : String :=
  ⟨List.intercalate sep.data (l.map String.data)⟩

/-- Python `s.split(c)` for a one-character separator. -/
def pySplitChar (c : Char) (s : String) : List String :=
  (s.data.splitOn c).map fun l => (⟨l⟩ : String)

/-- Python `s.split('#')[0]`: the prefix before the first `'#'`. -/
def pySplitHashHead (s : String) : String :=
  ⟨s.data.takeWhile (fun x => x ≠ '#')⟩

/-! ### Headline extractor (`update_daily_urls.py`, `extract_headline_urls`) -/

/-- A `<a href=...>` tag found inside a headline element: its `href`
attribute, its (stripped) link text and its `title` attribute. -/
structure LinkTag where
  href : String
  text : String
  titleAttr : String
  deriving DecidableEq

/-- The `class` attribute of a parsed element, which BeautifulSoup hands to
the `class_` filter either as missing, a single string, or a token list. -/
inductive ClassAttr where
  | missing
  | str (s : String)
  | toks (l : List String)
  deriving DecidableEq

/-- A parsed HTML element, reduced to the two features the extractor
inspects: its class attribute and its first contained `<a href>` tag
(`element.find('a', href=True)`). -/
structure Element where
  classAttr : ClassAttr
  link : Option LinkTag
  deriving DecidableEq

/-- `has_headline_class` from `update_daily_urls.py` (lines 55-63):
truthiness check, then Python substring (`in`) tests against the raw
string, or against the space-join of the token list. -/
def has_headline_class : ClassAttr → Bool
  | ClassAttr.missing => false
  | ClassAttr.str s =>
      !s.data.isEmpty && (pyContains "sa_item" s && pyContains "_SECTION_HEADLINE" s)
  | ClassAttr.toks l =>
      !l.isEmpty &&
        (let classes := pyJoin " " l
         pyContains "sa_item" classes && pyContains "_SECTION_HEADLINE" classes)

/-- The site origin hard-coded by the extractor. -/
def naverOrigin : String := "https://news.naver.com"

/-- Href normalization from `extract_headline_urls` (lines 84-92):
root-relative and non-`http` hrefs are prefixed with the origin, then the
fragment part is dropped (`href.split('#')[0]`). -/
def normalizeHref (href : String) : String :=
  let href :=
    if pyStartsWith href "/" then naverOrigin ++ href
    else if !(pyStartsWith href "http") then naverOrigin ++ "/" ++ href
    else href
  if pyContains "#" href then pySplitHashHead href else href

/-- The candidate URL an element contributes, if any: the element must have
a link whose stripped href is non-empty, and the normalized href must
contain `"article"`.  (The `href not in urls` dedup test lives in the
accumulating loop, not here.) -/
def elemURL (e : Element) : Option String :=
  match e.link with
  | Option.none => Option.none
  | Option.some lt =>
      let href := pyStrip lt.href
      if href.data.isEmpty then Option.none
      else
        let href := normalizeHref href
        if pyContains "article" href then Option.some href else Option.none

/-- Title choice: `link_tag.get_text(strip=True) or link_tag.get('title', '')`. -/
def elemTitle (lt : LinkTag) : String :=
  if lt.text.data.isEmpty then lt.titleAttr else lt.text

/-- The accumulating `for element in headline_elements[:max_urls]` loop of
`extract_headline_urls` (lines 75-99). -/
def extractLoop : List Element → List String → List String → List String × List String
  | [], urls, titles => (urls, titles)
  | e :: rest, urls, titles =>
      match e.link with
      | Option.none => extractLoop rest urls titles
      | Option.some lt =>
          let href := pyStrip lt.href
          let title := elemTitle lt
          if href.data.isEmpty then extractLoop rest urls titles
          else
            let href := normalizeHref href
            if pyContains "article" href && !(urls.contains href) then
              extractLoop rest (urls ++ [href]) (titles ++ [title])
            else extractLoop rest urls titles

/-- `extract_headline_urls`, as a function of the already-matched headline
elements: the slice `[:max_urls]` is applied to the elements before the
accept/skip logic runs. -/
def extract_headline_urls (elements : List Element) (max_urls : Nat) :
    List String × List String :=
  extractLoop (elements.take max_urls) [] []

/-! ### URL store merger (`update_daily_urls.py`, `update_daily_urls_file`) -/

/-- The sentinel text of the auto-update comment line. -/
def autoUpdateMarker : String := "Auto-updated URLs from Naver News Economy section"

/-- The line classification of the merger's filter pass (lines 136-150):
marker-containing lines are dropped, blank and comment lines are kept,
lines containing a URL scheme are dropped, anything else is kept. -/
def keepLine (line : String) : Bool :=
  let ls := pyStrip line
  if pyContains autoUpdateMarker ls then false
  else if ls.data.isEmpty || pyStartsWith ls "#" then true
  else if pyContains "http://" ls || pyContains "https://" ls then false
  else true

/-- A line that `strip`s to the empty string. -/
def isBlankLine (line : String) : Bool := (pyStrip line).data.isEmpty

/-- The `while new_content and not new_content[-1].strip(): new_content.pop()`
loop: remove the trailing run of blank lines. -/
def dropTrailingBlanks (l : List String) : List String :=
  (l.reverse.dropWhile isBlankLine).reverse

/-- `update_daily_urls_file` (lines 112-171) on an explicit line list: the
existing file's lines (each still carrying its newline) go in, the lines
written back come out; `Option.none` means the empty-input no-op in which
the file is left untouched. -/
def update_daily_urls_file (urls : List String) (existing : List String) :
    Option (List String) :=
  if urls.isEmpty then Option.none
  else
    let filtered := existing.filter keepLine
    let content := dropTrailingBlanks filtered
    let content := if content.isEmpty then content else content ++ ["\n"]
    let content := content ++ ["# " ++ autoUpdateMarker ++ "\n"]
    let url_line := pyJoin "," urls
    Option.some (content ++ [url_line ++ "\n"])

/-! ### Workflow URL loader (`generate_podcast_workflow.py`, `load_urls_from_file`) -/

/-- `load_urls_from_file` (lines 18-29) on the file's line list: skip blank
and comment lines, split data lines on commas, strip and drop empty parts. -/
def load_urls_from_file : List String → List String
  | [] => []
  | line :: rest =>
      let l := pyStrip line
      if !l.data.isEmpty && !(pyStartsWith l "#") then
        (((pySplitChar ',' l).filter fun u => !(pyStrip u).data.isEmpty).map pyStrip)
          ++ load_urls_from_file rest
      else load_urls_from_file rest

/-! ### Social-post composer (`post_to_twitter.py`, `create_tweet_message` and `main`) -/

def website_url : String := "https://dailynewspod.com"

def hashtags : String := "#뉴스팟캐스트 #데일리뉴스"

/-- The fixed tweet header built from today's date and weekday. -/
def tweetHeader (today weekday : String) : String :=
  "🎙️ " ++ today ++ "(" ++ weekday ++ ") 뉴스 팟캐스트\n\n"

/-- The fixed tweet footer. -/
def tweetFooter : String := "\n🔗 " ++ website_url ++ "\n\n" ++ hashtags

/-- The greedy headline-fitting loop of `create_tweet_message` (lines
61-72): truncate a long headline to 32 chars plus an ellipsis, bullet it,
and accept it while the running total stays within the available budget;
stop at the first overflow. -/
def tweetHeadlineLines (avail : Int) : List String → List String → List String
  | acc, [] => acc
  | acc, h :: rest =>
      let h := if h.length > 35 then pyTake h 32 ++ "..." else h
      let line := "• " ++ h ++ "\n"
      if (((acc.map String.length).sum + line.length : Nat) : Int) ≤ avail then
        tweetHeadlineLines avail (acc ++ [line]) rest
      else acc

/-- The fixed fallback messages used when no headlines are available. -/
def defaultMessages (today weekday : String) : List String :=
  ["🎙️ " ++ today ++ "(" ++ weekday ++ ") 데일리 뉴스가 도착했습니다!\n\n오늘의 주요 뉴스를 팟캐스트로 들어보세요.",
   "☀️ 좋은 아침이에요! " ++ today ++ "(" ++ weekday ++ ") 뉴스 팟캐스트가 준비됐습니다.\n\n출근길에 가볍게 들어보세요 🎧",
   "📰 " ++ today ++ "(" ++ weekday ++ ") 오늘의 뉴스 브리핑!\n\n주요 뉴스를 팟캐스트로 만나보세요."]

/-- `create_tweet_message` (lines 36-90), parameterized by the formatted
date, the weekday string, the day of month, and the loaded headlines
(`Option.none` models a missing/failed headline file; an empty list is
falsy just like in Python). -/
def create_tweet_message (today weekday : String) (day : Nat)
    (headlines : Option (List String)) : String :=
  match headlines with
  | Option.some (h :: t) =>
      let header := tweetHeader today weekday
      let footer := tweetFooter
      let avail : Int := 280 - (header.length : Int) - (footer.length : Int) - 10
      let lines := tweetHeadlineLines avail [] ((h :: t).take 3)
      header ++ pyJoin "" lines ++ footer
  | _ =>
      let base := (defaultMessages today weekday).getD (day % 3) ""
      base ++ "\n\n🔗 " ++ website_url ++ "\n\n" ++ hashtags

/-- The post-composition safety net in `main` (lines 167-171): hard
truncation to 277 characters plus `"..."` whenever the message exceeds
280 characters. -/
def finalizeTweet (message : String) : String :=
  if message.length > 280 then pyTake message 277 ++ "..." else message

/-! ### Push-notification composer (`send_push_notification.py`) -/

/-- The character class `[\d:]` of the timeline regex. -/
def timelineDigit (c : Char) : Bool := c.isDigit || c == ':'

/-- The per-line match of `load_topics_from_timeline` (lines 34-39): strip
the line, match `\[[\d:]+\]\s*(.+)` at its start, strip the captured text
and keep it when non-empty.  (A match whose capture strips to the empty
string and a failed match both contribute nothing, which this collapses
into `Option.none`.) -/
def topicOfLine (line : String) : Option String :=
  match (pyStrip line).data with
  | '[' :: rest =>
      let ts := rest.takeWhile timelineDigit
      if ts.isEmpty then Option.none
      else
        match rest.drop ts.length with
        | ']' :: rest2 =>
            let topic := pyStrip ⟨rest2⟩
            if topic.data.isEmpty then Option.none else Option.some topic
        | _ => Option.none
  | _ => Option.none

/-- `load_topics_from_timeline` applied to the text of the selected
timeline file: split on newlines, collect the matching topics, and return
the Python-falsy `None` when no line matched. -/
def load_topics_from_timeline (content : String) : Option (List String) :=
  let topics := (pySplitChar '\n' content).filterMap topicOfLine
  if topics.isEmpty then Option.none else Option.some topics

/-- Heading template of `create_notification_content`. -/
def notificationHeading (today : String) : String := today ++ " 뉴스가 도착했어요"

/-- The `for topic in topics[:3]` loop of `create_notification_content`
(lines 63-67): truncate long topics to 17 chars plus an ellipsis and
bullet each one, appending to the accumulated lines. -/
def pushTopicLoop : List String → List String → List String
  | acc, [] => acc
  | acc, t :: rest =>
      let t := if t.length > 20 then pyTake t 17 ++ "..." else t
      pushTopicLoop (acc ++ ["• " ++ t]) rest

/-- `create_notification_content` (lines 48-73), parameterized by the
formatted date and the loaded topics. -/
def create_notification_content (today : String) (topics : Option (List String)) :
    String × String :=
  let heading := notificationHeading today
  match topics with
  | Option.some (t :: ts) =>
      (heading, pyJoin "\n" (pushTopicLoop [] ((t :: ts).take 3)))
  | _ => (heading, "오늘의 뉴스 팟캐스트를 들어보세요")

/-! ### Helper lemmas about the string primitives -/

theorem pyContains_iff {pat s : String} :
    pyContains pat s = true ↔ pat.data <:+: s.data := by
  simp [pyContains]

theorem mk_data_eta (s : String) : (⟨s.data⟩ : String) = s := by
  cases s; rfl

theorem length_eq_data (s : String) : s.length = s.data.length := by
  cases s; rfl

theorem infix_of_pre {α : Type} {l₁ l₂ : List α} (h : l₁ <+: l₂) : l₁ <:+: l₂ := by
  obtain ⟨t, ht⟩ := h
  exact ⟨[], t, by rw [← ht]; simp⟩

theorem infix_of_suf {α : Type} {l₁ l₂ : List α} (h : l₁ <:+ l₂) : l₁ <:+: l₂ := by
  obtain ⟨s, hs⟩ := h
  exact ⟨s, [], by rw [← hs]; simp⟩

theorem intercalate_single {α : Type} (sep : List α) (a : List α) :
    List.intercalate sep [a] = a := by
  simp [List.intercalate]

theorem intercalate_cons_cons {α : Type} (sep a b : List α) (t : List (List α)) :
    List.intercalate sep (a :: b :: t) = a ++ sep ++ List.intercalate sep (b :: t) := by
  simp [List.intercalate, List.intersperse]

/-- Any member of a joined list is a substring of the join. -/
theorem mem_infix_pyJoin (sep : String) {x : String} {l : List String}
    (hx : x ∈ l) : x.data <:+: (pyJoin sep l).data := by
  induction l with
  | nil => cases hx
  | cons a t ih =>
      rcases List.mem_cons.mp hx with h | h
      · subst h
        cases t with
        | nil =>
            simp only [pyJoin, List.map_cons, List.map_nil, intercalate_single]
            exact List.infix_refl _
        | cons b t' =>
            simp only [pyJoin, List.map_cons, intercalate_cons_cons]
            exact infix_of_pre ((List.prefix_append _ _).trans
              (List.prefix_append _ _))
      · cases t with
        | nil => cases h
        | cons b t' =>
            have h1 := ih h
            simp only [pyJoin, List.map_cons, intercalate_cons_cons]
            simp only [pyJoin, List.map_cons] at h1
            exact h1.trans (infix_of_suf (List.suffix_append _ _))

/-! ### Claim C2: headline-class matching -/

/-- C2 counterexample: the claim says an element whose class token is the
strict superstring `"_SECTION_HEADLINE2"` is never selected, but
`has_headline_class` matches by Python substring containment on the
space-joined class list, so this element IS selected even though the
marker token is not a member of its token set. -/
theorem headline_class_superstring_selected :
    has_headline_class (ClassAttr.toks ["sa_item", "_SECTION_HEADLINE2"]) = true ∧
      "_SECTION_HEADLINE" ∉ ["sa_item", "_SECTION_HEADLINE2"] := by
  constructor
  · decide
  · decide

/-- C2 amended: matching is substring-based on the space-joined class
list.  Every element whose token list literally contains both marker
tokens is selected, but so is the token list
`["sa_item", "_SECTION_HEADLINE2"]`, whose token set does not contain the
secondary marker. -/
theorem headline_class_substring_matching :
    (∀ l : List String, "sa_item" ∈ l → "_SECTION_HEADLINE" ∈ l →
      has_headline_class (ClassAttr.toks l) = true) ∧
    has_headline_class (ClassAttr.toks ["sa_item", "_SECTION_HEADLINE2"]) = true := by
  refine ⟨fun l h1 h2 => ?_, by decide⟩
  have hne : l.isEmpty = false := by
    cases l with
    | nil => cases h1
    | cons a t => rfl
  have c1 : pyContains "sa_item" (pyJoin " " l) = true :=
    pyContains_iff.mpr (mem_infix_pyJoin " " h1)
  have c2 : pyContains "_SECTION_HEADLINE" (pyJoin " " l) = true :=
    pyContains_iff.mpr (mem_infix_pyJoin " " h2)
  simp [has_headline_class, hne, c1, c2]

/-- C2 amended witness at a concrete token list. -/
theorem headline_class_substring_matching_witness :
    has_headline_class (ClassAttr.toks ["sa_item", "_SECTION_HEADLINE"]) = true :=
  headline_class_substring_matching.1 ["sa_item", "_SECTION_HEADLINE"]
    (by decide) (by decide)

theorem pyStartsWith_iff {s pre : String} :
    pyStartsWith s pre = true ↔ pre.data <+: s.data := by
  simp [pyStartsWith]

theorem pyStartsWith_eq_false_iff {s pre : String} :
    pyStartsWith s pre = false ↔ ¬ pre.data <+: s.data := by
  rw [← Bool.not_eq_true, pyStartsWith_iff]

theorem takeWhile_eq_self_of_pos {α : Type} {p : α → Bool} {l : List α}
    (h : ∀ c ∈ l, p c = true) : l.takeWhile p = l := by
  induction l with
  | nil => rfl
  | cons a t ih =>
      rw [List.takeWhile_cons, h a (List.mem_cons_self a t)]
      simp [ih fun c hc => h c (List.mem_cons_of_mem a hc)]

theorem dropWhile_eq_self_of_neg {α : Type} {p : α → Bool} {l : List α}
    (h : ∀ c ∈ l, p c = false) : l.dropWhile p = l := by
  cases l with
  | nil => rfl
  | cons a t => rw [List.dropWhile_cons, h a (List.mem_cons_self a t)]; rfl

theorem singleton_infix_iff_mem {α : Type} {a : α} {l : List α} :
    [a] <:+: l ↔ a ∈ l := by
  constructor
  · rintro ⟨s, t, rfl⟩
    simp
  · intro h
    obtain ⟨s, t, rfl⟩ := List.append_of_mem h
    exact ⟨s, t, by simp⟩

theorem head?_append_left {α : Type} {l₁ l₂ : List α} {a : α}
    (h : l₁.head? = some a) : (l₁ ++ l₂).head? = some a := by
  cases l₁ with
  | nil => simp at h
  | cons x t => simpa using h

theorem pyStartsWith_append_left {A P pre : String}
    (h : pre.data <+: A.data) : pyStartsWith (A ++ P) pre = true := by
  rw [pyStartsWith_iff, String.data_append]
  exact h.trans (List.prefix_append _ _)

theorem pyStartsWith_false_of_head_ne {s pre : String} {a c : Char}
    (hs : s.data.head? = some a) (hp : pre.data.head? = some c) (hne : ¬ c = a) :
    pyStartsWith s pre = false := by
  rw [pyStartsWith_eq_false_iff]
  intro hpre
  cases hl : s.data with
  | nil => rw [hl] at hs; cases hs
  | cons x xs =>
      cases hq : pre.data with
      | nil => rw [hq] at hp; cases hp
      | cons y ys =>
          rw [hl] at hs hpre
          rw [hq] at hp hpre
          have h1 : y = x := (List.cons_prefix_cons.mp hpre).1
          have hxa : x = a := by injection hs
          have hyc : y = c := by injection hp
          exact hne (by rw [← hyc, h1, hxa])

/-! ### Claim C4: href normalization -/

/-- C4 counterexample: the protocol-relative form of an article path is
NOT normalized to the same absolute URL as the fully-qualified form — it
matches the leading-slash branch and gets the origin prepended verbatim. -/
theorem normalize_protocol_relative_diverges :
    normalizeHref "//news.naver.com/main/article/123"
        = "https://news.naver.com//news.naver.com/main/article/123" ∧
    normalizeHref "https://news.naver.com/main/article/123"
        = "https://news.naver.com/main/article/123" ∧
    normalizeHref "//news.naver.com/main/article/123"
        ≠ normalizeHref "https://news.naver.com/main/article/123" := by
  refine ⟨by decide, by decide, by decide⟩

/-- C4 amended: for every path `P`, the root-relative form `/P` and the
fully-qualified form normalize to the same absolute URL, and the result is
always the fragment-free part (everything before the first `'#'`); a
protocol-relative href, however, starts with `'/'`, so it is rebased like
a root-relative path, i.e. it normalizes exactly as if the origin had been
textually prepended to it — not to the fully-qualified equivalent. -/
theorem normalize_root_relative_agrees (P : String) :
    normalizeHref ("/" ++ P) = normalizeHref ("https://news.naver.com/" ++ P) ∧
    normalizeHref ("//news.naver.com/" ++ P)
      = normalizeHref ("https://news.naver.com" ++ ("//news.naver.com/" ++ P)) ∧
    normalizeHref ("https://news.naver.com/" ++ P)
      = pySplitHashHead ("https://news.naver.com/" ++ P) := by
  have hslash : pyStartsWith ("/" ++ P) "/" = true :=
    pyStartsWith_append_left (List.prefix_refl _)
  have hslash2 : pyStartsWith ("//news.naver.com/" ++ P) "/" = true :=
    pyStartsWith_append_left (by decide)
  have hq0 : ("https://news.naver.com/" ++ P).data.head? = some 'h' :=
    head?_append_left (by decide)
  have hq1 : pyStartsWith ("https://news.naver.com/" ++ P) "/" = false :=
    pyStartsWith_false_of_head_ne (c := '/') hq0 (by decide) (by decide)
  have hq2 : pyStartsWith ("https://news.naver.com/" ++ P) "http" = true :=
    pyStartsWith_append_left (by decide)
  have hr0 : ("https://news.naver.com" ++ ("//news.naver.com/" ++ P)).data.head?
      = some 'h' := head?_append_left (by decide)
  have hr1 : pyStartsWith ("https://news.naver.com" ++ ("//news.naver.com/" ++ P)) "/"
      = false := pyStartsWith_false_of_head_ne (c := '/') hr0 (by decide) (by decide)
  have hr2 : pyStartsWith ("https://news.naver.com" ++ ("//news.naver.com/" ++ P)) "http"
      = true := pyStartsWith_append_left (by decide)
  have hX : naverOrigin ++ ("/" ++ P) = "https://news.naver.com/" ++ P := by
    apply String.ext
    simp only [String.data_append, ← List.append_assoc]
    congr 1
  refine ⟨?_, ?_, ?_⟩
  · rw [normalizeHref, normalizeHref]
    simp only [hslash, hq1, hq2, if_true, if_false, Bool.not_true, Bool.false_eq_true]
    rw [hX]
  · rw [normalizeHref, normalizeHref]
    simp only [hslash2, hr1, hr2, if_true, if_false, Bool.not_true, Bool.false_eq_true]
    rfl
  · rw [normalizeHref]
    simp only [hq1, hq2, Bool.not_true, if_false, Bool.false_eq_true]
    by_cases hc : pyContains "#" ("https://news.naver.com/" ++ P) = true
    · rw [if_pos hc]
    · rw [if_neg hc]
      have hmem : '#' ∉ ("https://news.naver.com/" ++ P).data := by
        intro hm
        exact hc (pyContains_iff.mpr (singleton_infix_iff_mem.mpr hm))
      apply String.ext
      show ("https://news.naver.com/" ++ P).data
          = (("https://news.naver.com/" ++ P).data.takeWhile fun x => decide ¬ x = '#')
      refine (takeWhile_eq_self_of_pos fun c hcmem => ?_).symm
      simp only [decide_eq_true_eq]
      rintro rfl
      exact hmem hcmem

/-! ### Claim C9: timeline topic loader -/

/-- C9: the three-line timeline file yields exactly the two matching
topics, in file order, dropping the non-matching middle line. -/
theorem timeline_loader_concrete :
    load_topics_from_timeline "[00:05] Topic A\nnot a topic\n[01:10] Topic B"
      = Option.some ["Topic A", "Topic B"] := by decide

/-! ### Claim C5: the social post never exceeds 280 characters -/

/-- C5: for every date, weekday, day of month and loaded headline list
(including the missing and empty cases), the message that survives the
safety net of `main` has length at most 280. -/
theorem tweet_length_bounded (today weekday : String) (day : Nat)
    (headlines : Option (List String)) :
    (finalizeTweet (create_tweet_message today weekday day headlines)).length ≤ 280 := by
  generalize create_tweet_message today weekday day headlines = m
  rw [finalizeTweet]
  by_cases h : m.length > 280
  · rw [if_pos h, String.length_append]
    have h1 : (pyTake m 277).length = min 277 m.data.length := by
      rw [length_eq_data]
      simp [pyTake]
    have h2 : ("..." : String).length = 3 := by decide
    have h3 := length_eq_data m
    omega
  · rw [if_neg h]; omega

/-! ### The extractor loop, characterized -/

/-- First-occurrence deduplication with an explicit accumulator: the
`href not in urls` test of the extractor, separated from the loop. -/
def dedupAccum : List String → List String → List String
  | [], acc => acc
  | u :: rest, acc =>
      if u ∈ acc then dedupAccum rest acc else dedupAccum rest (acc ++ [u])

theorem elemURL_eq_of_link {e : Element} {lt : LinkTag} (hl : e.link = Option.some lt) :
    elemURL e =
      (if (pyStrip lt.href).data.isEmpty = true then Option.none
       else if pyContains "article" (normalizeHref (pyStrip lt.href)) = true then
         Option.some (normalizeHref (pyStrip lt.href))
       else Option.none) := by
  rw [elemURL, hl]

theorem extractLoop_cons_of_link {e : Element} {lt : LinkTag} (hl : e.link = Option.some lt)
    (rest : List Element) (urls titles : List String) :
    extractLoop (e :: rest) urls titles =
      (if (pyStrip lt.href).data.isEmpty = true then extractLoop rest urls titles
       else if pyContains "article" (normalizeHref (pyStrip lt.href))
           && !(urls.contains (normalizeHref (pyStrip lt.href))) then
         extractLoop rest (urls ++ [normalizeHref (pyStrip lt.href)])
           (titles ++ [elemTitle lt])
       else extractLoop rest urls titles) := by
  rw [extractLoop, hl]

theorem extractLoop_cons_none {e : Element} (rest : List Element)
    (urls titles : List String) (h : elemURL e = Option.none) :
    extractLoop (e :: rest) urls titles = extractLoop rest urls titles := by
  rcases hl : e.link with _ | lt
  · rw [extractLoop, hl]
  · rw [elemURL_eq_of_link hl] at h
    rw [extractLoop_cons_of_link hl]
    by_cases h1 : (pyStrip lt.href).data.isEmpty = true
    · rw [if_pos h1]
    · rw [if_neg h1] at h ⊢
      by_cases h2 : pyContains "article" (normalizeHref (pyStrip lt.href)) = true
      · rw [if_pos h2] at h; cases h
      · have h2f : pyContains "article" (normalizeHref (pyStrip lt.href)) = false :=
          Bool.eq_false_iff.mpr h2
        rw [h2f]
        simp

theorem extractLoop_cons_some {e : Element} {u : String} (rest : List Element)
    (urls titles : List String) (h : elemURL e = Option.some u) :
    ∃ t, extractLoop (e :: rest) urls titles =
      if u ∈ urls then extractLoop rest urls titles
      else extractLoop rest (urls ++ [u]) (titles ++ [t]) := by
  rcases hl : e.link with _ | lt
  · rw [elemURL, hl] at h; cases h
  · rw [elemURL_eq_of_link hl] at h
    by_cases h1 : (pyStrip lt.href).data.isEmpty = true
    · rw [if_pos h1] at h; cases h
    · rw [if_neg h1] at h
      by_cases h2 : pyContains "article" (normalizeHref (pyStrip lt.href)) = true
      · rw [if_pos h2] at h
        have hu : normalizeHref (pyStrip lt.href) = u := by injection h
        refine ⟨elemTitle lt, ?_⟩
        rw [extractLoop_cons_of_link hl rest urls titles, if_neg h1, hu]
        have h2u : pyContains "article" u = true := hu ▸ h2
        rw [h2u, Bool.true_and]
        by_cases hmem : u ∈ urls
        · have hc : urls.contains u = true := by
            show List.elem u urls = true
            exact List.elem_iff.mpr hmem
          rw [hc, if_pos hmem]
          simp
        · have hc : urls.contains u = false := by
            show List.elem u urls = false
            rw [← Bool.not_eq_true]
            intro hcon
            exact hmem (List.elem_iff.mp hcon)
          rw [hc, if_neg hmem]
          simp
      · rw [if_neg h2] at h; cases h

/-- The accepted-URL component of the loop is first-occurrence
deduplication of the per-element candidate URLs. -/
theorem extractLoop_urls_eq (es : List Element) :
    ∀ urls titles : List String,
      (extractLoop es urls titles).1 = dedupAccum (es.filterMap elemURL) urls := by
  induction es with
  | nil => intro urls titles; rfl
  | cons e rest ih =>
      intro urls titles
      cases h : elemURL e with
      | none =>
          rw [extractLoop_cons_none rest urls titles h]
          simp only [List.filterMap_cons, h]
          exact ih urls titles
      | some u =>
          obtain ⟨t, hstep⟩ := extractLoop_cons_some rest urls titles h
          rw [hstep]
          simp only [List.filterMap_cons, h, dedupAccum]
          by_cases hmem : u ∈ urls
          · rw [if_pos hmem, if_pos hmem, ih]
          · rw [if_neg hmem, if_neg hmem, ih]

/-- URLs and titles are appended in lockstep. -/
theorem extractLoop_lockstep (es : List Element) :
    ∀ urls titles : List String,
      (extractLoop es urls titles).1.length + titles.length
        = (extractLoop es urls titles).2.length + urls.length := by
  induction es with
  | nil => intro urls titles; simp [extractLoop, Nat.add_comm]
  | cons e rest ih =>
      intro urls titles
      cases h : elemURL e with
      | none => rw [extractLoop_cons_none rest urls titles h]; exact ih urls titles
      | some u =>
          obtain ⟨t, hstep⟩ := extractLoop_cons_some rest urls titles h
          rw [hstep]
          by_cases hmem : u ∈ urls
          · rw [if_pos hmem]; exact ih urls titles
          · rw [if_neg hmem]
            have := ih (urls ++ [u]) (titles ++ [t])
            simp only [List.length_append, List.length_cons, List.length_nil] at this ⊢
            omega

theorem dedupAccum_eq_append {l : List String} :
    ∀ acc, (∀ u ∈ l, u ∉ acc) → l.Nodup → dedupAccum l acc = acc ++ l := by
  induction l with
  | nil => intro acc _ _; simp [dedupAccum]
  | cons u t ih =>
      intro acc hdis hnd
      rw [dedupAccum, if_neg (hdis u (List.mem_cons_self u t))]
      rw [ih (acc ++ [u]) ?_ (List.nodup_cons.mp hnd).2]
      · simp
      · intro v hv
        simp only [List.mem_append, List.mem_singleton]
        rintro (hva | rfl)
        · exact hdis v (List.mem_cons_of_mem u hv) hva
        · exact (List.nodup_cons.mp hnd).1 hv

theorem length_filterMap_of_isSome {α β : Type} {f : α → Option β} {l : List α}
    (h : ∀ e ∈ l, (f e).isSome = true) : (l.filterMap f).length = l.length := by
  induction l with
  | nil => rfl
  | cons a t ih =>
      cases hf : f a with
      | none =>
          have hx := h a (List.mem_cons_self a t)
          rw [hf] at hx
          simp at hx
      | some b =>
          simp only [List.filterMap_cons, hf, List.length_cons]
          rw [ih fun e he => h e (List.mem_cons_of_mem a he)]

/-! ### Claim C1: a full budget of distinct article URLs -/

/-- C1: if every matched element yields an accepted article URL and those
URLs are pairwise distinct, and at least `max_count` elements matched,
then the extractor returns exactly `max_count` headlines, in document
order, with no duplicate URL. -/
theorem extractor_full_budget (es : List Element) (k : Nat)
    (hsome : ∀ e ∈ es, (elemURL e).isSome = true)
    (hnodup : (es.filterMap elemURL).Nodup)
    (hk : k ≤ es.length) :
    (extract_headline_urls es k).1 = (es.take k).filterMap elemURL ∧
    (extract_headline_urls es k).1.length = k ∧
    (extract_headline_urls es k).1.Nodup ∧
    (extract_headline_urls es k).2.length = k := by
  have hsub : List.Sublist ((es.take k).filterMap elemURL) (es.filterMap elemURL) :=
    (List.take_sublist k es).filterMap elemURL
  have hnd : ((es.take k).filterMap elemURL).Nodup := hnodup.sublist hsub
  have h1 : (extract_headline_urls es k).1 = (es.take k).filterMap elemURL := by
    rw [extract_headline_urls, extractLoop_urls_eq,
      dedupAccum_eq_append _ (by intro u _ hu; cases hu) hnd]
    rfl
  have hlen : ((es.take k).filterMap elemURL).length = k := by
    rw [length_filterMap_of_isSome fun e he => hsome e (List.mem_of_mem_take he)]
    rw [List.length_take]
    omega
  refine ⟨h1, by rw [h1, hlen], by rw [h1]; exact hnd, ?_⟩
  have hls := extractLoop_lockstep (es.take k) [] []
  simp only [List.length_nil, Nat.add_zero] at hls
  rw [extract_headline_urls] at h1 ⊢
  rw [h1] at hls
  omega

/-- Concrete elements: two matched headline elements with distinct
article hrefs. -/
def c1Elems : List Element :=
  [⟨ClassAttr.toks ["sa_item", "_SECTION_HEADLINE"],
      Option.some ⟨"/article/001", "T1", ""⟩⟩,
   ⟨ClassAttr.toks ["sa_item", "_SECTION_HEADLINE"],
      Option.some ⟨"/article/002", "T2", ""⟩⟩]

/-- C1 witness at a concrete document with two elements and budget two. -/
theorem extractor_full_budget_witness :
    (extract_headline_urls c1Elems 2).1 = (c1Elems.take 2).filterMap elemURL ∧
    (extract_headline_urls c1Elems 2).1.length = 2 ∧
    (extract_headline_urls c1Elems 2).1.Nodup ∧
    (extract_headline_urls c1Elems 2).2.length = 2 :=
  extractor_full_budget c1Elems 2 (by decide) (by decide) (by decide)

/-! ### Claim C3: a skipped element still consumes budget -/

/-- Six matched elements: the first has no hyperlink, the remaining five
carry distinct article hrefs. -/
def c3Elems : List Element :=
  ⟨ClassAttr.toks ["sa_item", "_SECTION_HEADLINE"], Option.none⟩ ::
    (["/article/1", "/article/2", "/article/3", "/article/4", "/article/5"].map
      fun h => ⟨ClassAttr.toks ["sa_item", "_SECTION_HEADLINE"],
        Option.some ⟨h, "T", ""⟩⟩)

/-- C3 counterexample: with `max_count = 5`, five matched elements yield
accepted URLs (so the claim predicts `min 5 5 = 5` headlines), but the
extractor returns only 4, because the linkless first element consumed one
of the five examined slots. -/
theorem skipped_element_consumes_budget :
    (c3Elems.filterMap elemURL).length = 5 ∧
    min 5 (c3Elems.filterMap elemURL).length = 5 ∧
    (extract_headline_urls c3Elems 5).1.length = 4 := by
  refine ⟨by decide, by decide, by decide⟩

/-- C3 amended: the extractor examines only the first `max_count` matched
elements, so a skipped element does consume budget; the returned URLs are
exactly the first-occurrence deduplication of the accepted candidate URLs
of the first `max_count` matched elements. -/
theorem extractor_examines_first_k (es : List Element) (k : Nat) :
    (extract_headline_urls es k).1 = dedupAccum ((es.take k).filterMap elemURL) [] := by
  rw [extract_headline_urls]
  exact extractLoop_urls_eq (es.take k) [] []

/-! ### Claim C8: push-notification topic rendering -/

theorem pushTopicLoop_eq_map (l : List String) :
    ∀ acc, pushTopicLoop acc l
      = acc ++ l.map fun t => "• " ++ (if t.length > 20 then pyTake t 17 ++ "..." else t) := by
  induction l with
  | nil => intro acc; simp [pushTopicLoop]
  | cons t rest ih =>
      intro acc
      rw [pushTopicLoop, ih]
      simp

/-- C8: with topics available, the push body consists of the first three
topics only, each bulleted, a topic of length at most 20 rendered
unmodified and a longer one as its first 17 characters plus the ellipsis
marker — which is exactly 20 characters. -/
theorem push_topic_rendering (today : String) (t0 : String) (ts : List String) :
    (create_notification_content today (Option.some (t0 :: ts))).2
      = pyJoin "\n" (((t0 :: ts).take 3).map fun t =>
          "• " ++ (if t.length > 20 then pyTake t 17 ++ "..." else t)) ∧
    ∀ t : String, t.length > 20 → (pyTake t 17 ++ "...").length = 20 := by
  constructor
  · show pyJoin "\n" (pushTopicLoop [] ((t0 :: ts).take 3)) = _
    rw [pushTopicLoop_eq_map]
    rfl
  · intro t ht
    rw [String.length_append]
    have h1 : (pyTake t 17).length = min 17 t.data.length := by
      rw [length_eq_data]
      simp [pyTake]
    have h2 : ("..." : String).length = 3 := by decide
    have h3 := length_eq_data t
    omega

/-- C8 witness: a 25-character topic is rendered at exactly 20 characters. -/
theorem push_topic_rendering_witness :
    (pyTake "abcdefghijklmnopqrstuvwxy" 17 ++ "...").length = 20 :=
  (push_topic_rendering "d" "abcdefghijklmnopqrstuvwxy" []).2
    "abcdefghijklmnopqrstuvwxy" (by decide)

/-! ### Strip and trailing-blank lemmas for the merger -/

theorem dropWhile_idem {α : Type} {p : α → Bool} {l : List α} :
    (l.dropWhile p).dropWhile p = l.dropWhile p := by
  induction l with
  | nil => rfl
  | cons a t ih =>
      by_cases h : p a = true
      · rw [List.dropWhile_cons_of_pos h]; exact ih
      · rw [List.dropWhile_cons_of_neg h, List.dropWhile_cons_of_neg h]

theorem dropTrailingBlanks_idem (l : List String) :
    dropTrailingBlanks (dropTrailingBlanks l) = dropTrailingBlanks l := by
  rw [dropTrailingBlanks, dropTrailingBlanks, List.reverse_reverse, dropWhile_idem]

theorem dropTrailingBlanks_append_blank {l : List String} {b : String}
    (hb : isBlankLine b = true) :
    dropTrailingBlanks (l ++ [b]) = dropTrailingBlanks l := by
  rw [dropTrailingBlanks, dropTrailingBlanks, List.reverse_append]
  simp only [List.reverse_cons, List.reverse_nil, List.nil_append, List.singleton_append,
    List.dropWhile_cons_of_pos hb]

theorem dropTrailingBlanks_prefix_self (l : List String) :
    dropTrailingBlanks l <+: l := by
  rw [dropTrailingBlanks]
  have h : List.dropWhile isBlankLine l.reverse <:+ l.reverse :=
    ⟨List.takeWhile isBlankLine l.reverse, List.takeWhile_append_dropWhile _ _⟩
  have h2 := List.reverse_prefix.mpr h
  rwa [List.reverse_reverse] at h2

/-- Stripping a list whose head block is non-empty and whitespace-free
keeps that block as a prefix. -/
theorem stripData_clean_head (p r : List Char) (hne : p ≠ [])
    (hp : ∀ c ∈ p, wsp c = false) :
    ∃ t, stripData (p ++ r) = p ++ t := by
  cases p with
  | nil => cases hne rfl
  | cons a p' =>
      have ha : wsp a = false := hp a (List.mem_cons_self a p')
      have hld : ((a :: p') ++ r).dropWhile wsp = (a :: p') ++ r := by
        rw [List.cons_append, List.dropWhile_cons_of_neg (by simp [ha])]
      rw [stripData, hld, List.cons_append, List.reverse_cons, ← List.reverse_cons,
        ← List.cons_append, List.reverse_append, List.dropWhile_append]
      by_cases hr : (r.reverse.dropWhile wsp).isEmpty = true
      · rw [if_pos hr]
        have : (a :: p').reverse.dropWhile wsp = (a :: p').reverse :=
          dropWhile_eq_self_of_neg fun c hc => hp c (List.mem_reverse.mp hc)
        rw [this, List.reverse_reverse]
        exact ⟨[], by simp⟩
      · rw [if_neg hr]
        rw [List.reverse_append, List.reverse_reverse]
        exact ⟨(r.reverse.dropWhile wsp).reverse, rfl⟩

/-- Stripping a whitespace-free list followed by the final newline
recovers the list itself. -/
theorem stripData_clean_newline (m : List Char) (hm : ∀ c ∈ m, wsp c = false)
    (hne : m ≠ []) : stripData (m ++ ['\n']) = m := by
  cases m with
  | nil => cases hne rfl
  | cons a m' =>
      have ha : wsp a = false := hm a (List.mem_cons_self a m')
      have hld : ((a :: m') ++ ['\n']).dropWhile wsp = (a :: m') ++ ['\n'] := by
        rw [List.cons_append, List.dropWhile_cons_of_neg (by simp [ha])]
      rw [stripData, hld, List.reverse_append]
      simp only [List.reverse_cons, List.reverse_nil, List.nil_append, List.singleton_append]
      rw [List.dropWhile_cons_of_pos (by decide)]
      have hcl : ∀ c ∈ m'.reverse ++ [a], wsp c = false := by
        intro c hc
        rcases List.mem_append.mp hc with h1 | h1
        · exact hm c (List.mem_cons_of_mem a (List.mem_reverse.mp h1))
        · rw [List.mem_singleton.mp h1]; exact hm a (List.mem_cons_self a m')
      rw [dropWhile_eq_self_of_neg hcl, ← List.reverse_cons, List.reverse_reverse]

theorem stripData_eq_self_of_clean {l : List Char} (h : ∀ c ∈ l, wsp c = false) :
    stripData l = l := by
  rw [stripData, dropWhile_eq_self_of_neg h,
    dropWhile_eq_self_of_neg fun c hc => h c (List.mem_reverse.mp hc),
    List.reverse_reverse]

/-! ### The merger's output, in normal form -/

/-- The separator blank appended when preserved content remains. -/
def blankSep (l : List String) : List String := if l.isEmpty then [] else ["\n"]

theorem update_eq_some {urls : List String} (existing : List String) (h : urls ≠ []) :
    update_daily_urls_file urls existing
      = Option.some (dropTrailingBlanks (existing.filter keepLine)
          ++ blankSep (dropTrailingBlanks (existing.filter keepLine))
          ++ ["# " ++ autoUpdateMarker ++ "\n", pyJoin "," urls ++ "\n"]) := by
  have hne : urls.isEmpty = false := by
    cases urls with
    | nil => cases h rfl
    | cons u t => rfl
  rw [update_daily_urls_file, hne]
  simp only [Bool.false_eq_true, if_false, blankSep]
  by_cases hD : (dropTrailingBlanks (existing.filter keepLine)).isEmpty = true
  · rw [if_pos hD, if_pos hD]
    rw [List.isEmpty_iff.mp hD]
    rfl
  · rw [if_neg hD, if_neg hD]
    simp

/-! ### Line-classification lemmas -/

theorem keepLine_true_of_comment_or_blank {l : String}
    (hcb : isBlankLine l = true ∨ pyStartsWith (pyStrip l) "#" = true)
    (hm : pyContains autoUpdateMarker (pyStrip l) = false) :
    keepLine l = true := by
  rw [isBlankLine] at hcb
  simp only [keepLine, hm, Bool.false_eq_true, if_false]
  rcases hcb with hb | hc
  · rw [hb, Bool.true_or, if_pos rfl]
  · rw [hc, Bool.or_true, if_pos rfl]

theorem keepLine_false_of_marker {l : String}
    (hm : pyContains autoUpdateMarker (pyStrip l) = true) :
    keepLine l = false := by
  simp [keepLine, hm]

theorem keepLine_false_of_scheme {l : String}
    (hs : pyContains "http://" (pyStrip l) = true ∨ pyContains "https://" (pyStrip l) = true)
    (hb : isBlankLine l = false) (hc : pyStartsWith (pyStrip l) "#" = false)
    (hm : pyContains autoUpdateMarker (pyStrip l) = false) :
    keepLine l = false := by
  rw [isBlankLine] at hb
  simp only [keepLine, hm, Bool.false_eq_true, if_false, hb, hc, Bool.or_self, if_false]
  rcases hs with h | h
  · rw [h, Bool.true_or, if_pos rfl]
  · rw [h, Bool.or_true, if_pos rfl]

/-! ### Claim C6: comment and blank lines are preserved — except trailing blanks -/

/-- C6 counterexample: an existing store whose two final lines are blank
loses one of them — the merged output contains only a single blank line,
so a blank line of the store was deleted. -/
theorem merger_deletes_trailing_blank :
    update_daily_urls_file ["https://news.naver.com/article/1"] ["# a\n", "\n", "\n"]
      = Option.some ["# a\n", "\n",
          "# Auto-updated URLs from Naver News Economy section\n",
          "https://news.naver.com/article/1\n"] ∧
    (["# a\n", "\n", "\n"].countP isBlankLine) = 2 ∧
    (["# a\n", "\n",
      "# Auto-updated URLs from Naver News Economy section\n",
      "https://news.naver.com/article/1\n"].countP isBlankLine) = 1 := by
  refine ⟨by decide, by decide, by decide⟩

/-- C6 amended: every comment or blank line that does not contain the
auto-update marker survives the merger's filter, and the filtered content
minus its trailing run of blank lines reappears verbatim as a prefix of
the merged output; only marker-containing comment lines and the trailing
blank run can disappear. -/
theorem merger_preserves_nontrailing (urls existing out : List String)
    (h : update_daily_urls_file urls existing = Option.some out) :
    dropTrailingBlanks (existing.filter keepLine) <+: out ∧
    ∀ l ∈ existing, (isBlankLine l = true ∨ pyStartsWith (pyStrip l) "#" = true) →
      pyContains autoUpdateMarker (pyStrip l) = false →
      l ∈ existing.filter keepLine := by
  have hne : urls ≠ [] := by
    intro h0
    rw [h0] at h
    simp [update_daily_urls_file] at h
  constructor
  · rw [update_eq_some existing hne] at h
    injection h with h
    rw [← h]
    exact (List.prefix_append _ _).trans (List.prefix_append _ _)
  · intro l hl hcb hm
    exact List.mem_filter.mpr ⟨hl, keepLine_true_of_comment_or_blank hcb hm⟩

/-- C6 amended witness at a concrete store and URL list. -/
theorem merger_preserves_nontrailing_witness :
    dropTrailingBlanks ((["# c\n", "\n", "old\n"]).filter keepLine) <+:
      ["# c\n", "\n", "old\n", "\n",
        "# Auto-updated URLs from Naver News Economy section\n", "https://a\n"] ∧
    ∀ l ∈ ["# c\n", "\n", "old\n"],
      (isBlankLine l = true ∨ pyStartsWith (pyStrip l) "#" = true) →
      pyContains autoUpdateMarker (pyStrip l) = false →
      l ∈ (["# c\n", "\n", "old\n"]).filter keepLine :=
  merger_preserves_nontrailing ["https://a"] ["# c\n", "\n", "old\n"] _ (by decide)

/-! ### Claim C7: running the merge twice -/

theorem pyJoin_cons_data (sep u : String) (rest : List String) :
    ∃ tl, (pyJoin sep (u :: rest)).data = u.data ++ tl := by
  cases rest with
  | nil =>
      refine ⟨[], ?_⟩
      show List.intercalate sep.data [u.data] = u.data ++ []
      rw [intercalate_single, List.append_nil]
  | cons v t =>
      refine ⟨sep.data ++ List.intercalate sep.data ((v :: t).map String.data), ?_⟩
      show List.intercalate sep.data (u.data :: (v :: t).map String.data) = _
      rw [List.map_cons, intercalate_cons_cons, List.append_assoc]

theorem isEmpty_false_of_head {α : Type} {l : List α} {a : α}
    (h : l.head? = some a) : l.isEmpty = false := by
  cases l with
  | nil => cases h
  | cons x t => rfl

/-- A line whose character data begins with a URL scheme is dropped by
the merger's filter. -/
theorem keepLine_false_of_scheme_head {line p : String} {t : List Char}
    (hps : p = "http://" ∨ p = "https://")
    (ht : line.data = p.data ++ t) : keepLine line = false := by
  have hpne : p.data ≠ [] := by rcases hps with rfl | rfl <;> decide
  have hw : ∀ c ∈ p.data, wsp c = false := by rcases hps with rfl | rfl <;> decide
  have hh : p.data.head? = some 'h' := by rcases hps with rfl | rfl <;> decide
  obtain ⟨t2, ht2⟩ := stripData_clean_head p.data t hpne hw
  have hs : (pyStrip line).data = p.data ++ t2 := by
    show stripData line.data = p.data ++ t2
    rw [ht]; exact ht2
  have hs0 : (pyStrip line).data.head? = some 'h' := by
    rw [hs]; exact head?_append_left hh
  have hblank : isBlankLine line = false := by
    rw [isBlankLine]; exact isEmpty_false_of_head hs0
  have hc : pyStartsWith (pyStrip line) "#" = false :=
    pyStartsWith_false_of_head_ne (c := '#') hs0 (by decide) (by decide)
  have hin : pyContains p (pyStrip line) = true := by
    rw [pyContains_iff, hs]; exact infix_of_pre (List.prefix_append _ _)
  by_cases hm : pyContains autoUpdateMarker (pyStrip line) = true
  · exact keepLine_false_of_marker hm
  · have hm0 : pyContains autoUpdateMarker (pyStrip line) = false := Bool.eq_false_iff.mpr hm
    apply keepLine_false_of_scheme ?_ hblank hc hm0
    rcases hps with rfl | rfl
    · exact Or.inl hin
    · exact Or.inr hin

/-- The data line the merger writes is itself dropped on the next run,
provided the first URL carries a scheme. -/
theorem keepLine_url_line_false {u : String} (rest : List String)
    (hu : pyStartsWith u "http://" = true ∨ pyStartsWith u "https://" = true) :
    keepLine (pyJoin "," (u :: rest) ++ "\n") = false := by
  obtain ⟨tl, htl⟩ := pyJoin_cons_data "," u rest
  have hex : ∃ p, (p = "http://" ∨ p = "https://") ∧ ∃ q, p.data ++ q = u.data := by
    rcases hu with hp | hp
    · exact ⟨"http://", Or.inl rfl, pyStartsWith_iff.mp hp⟩
    · exact ⟨"https://", Or.inr rfl, pyStartsWith_iff.mp hp⟩
  obtain ⟨p, hps, q, hq⟩ := hex
  apply keepLine_false_of_scheme_head (t := q ++ tl ++ ['\n']) hps
  have hnl : ("\n" : String).data = ['\n'] := rfl
  rw [String.data_append, htl, ← hq, hnl]
  simp [List.append_assoc]

/-- Re-running the merger with the same scheme-carrying URL list
reproduces its own output unchanged. -/
theorem merge_twice_eq (urls existing out1 : List String)
    (hu : ∀ v ∈ urls, pyStartsWith v "http://" = true ∨ pyStartsWith v "https://" = true)
    (hne : urls ≠ [])
    (h1 : update_daily_urls_file urls existing = Option.some out1) :
    update_daily_urls_file urls out1 = Option.some out1 := by
  rw [update_eq_some existing hne] at h1
  injection h1 with h1
  obtain ⟨u, rest, rfl⟩ : ∃ u rest, urls = u :: rest := by
    cases urls with
    | nil => cases hne rfl
    | cons u rest => exact ⟨u, rest, rfl⟩
  set D := dropTrailingBlanks (existing.filter keepLine) with hD
  have hfD : D.filter keepLine = D :=
    List.filter_eq_self.mpr fun x hx =>
      List.of_mem_filter ((dropTrailingBlanks_prefix_self _).sublist.subset hx)
  have hfS : (blankSep D).filter keepLine = blankSep D := by
    by_cases hD0 : D.isEmpty = true
    · simp [blankSep, hD0]
    · simp only [blankSep, hD0, Bool.false_eq_true, if_false]
      decide
  have hm1 : keepLine ("# " ++ autoUpdateMarker ++ "\n") = false := by decide
  have hm2 : keepLine (pyJoin "," (u :: rest) ++ "\n") = false :=
    keepLine_url_line_false rest (hu u (List.mem_cons_self u rest))
  have hmu : List.filter keepLine
      ["# " ++ autoUpdateMarker ++ "\n", pyJoin "," (u :: rest) ++ "\n"] = [] := by
    simp [List.filter_cons, hm1, hm2]
  have hF : out1.filter keepLine = D ++ blankSep D := by
    rw [← h1, List.filter_append, List.filter_append, hfD, hfS, hmu, List.append_nil]
  have hdTB : dropTrailingBlanks (out1.filter keepLine) = D := by
    rw [hF, blankSep]
    by_cases hD0 : D.isEmpty = true
    · rw [if_pos hD0, List.isEmpty_iff.mp hD0]; rfl
    · rw [if_neg hD0, dropTrailingBlanks_append_blank (by decide), hD]
      exact dropTrailingBlanks_idem _
  rw [update_eq_some out1 hne, hdTB, ← h1]

/-- C7: with every URL scheme-carrying and single-line, a second merge run
with the same URL list leaves the file identical, so in particular its
comment and blank lines are the same lines in the same order. -/
theorem merger_idempotent_preserved (urls existing out1 out2 : List String)
    (hu : ∀ v ∈ urls,
      (pyStartsWith v "http://" = true ∨ pyStartsWith v "https://" = true) ∧
      '\n' ∉ v.data)
    (hne : urls ≠ [])
    (h1 : update_daily_urls_file urls existing = Option.some out1)
    (h2 : update_daily_urls_file urls out1 = Option.some out2) :
    out2 = out1 ∧
    out2.filter (fun l => isBlankLine l || pyStartsWith (pyStrip l) "#")
      = out1.filter (fun l => isBlankLine l || pyStartsWith (pyStrip l) "#") := by
  have h3 := merge_twice_eq urls existing out1 (fun v hv => (hu v hv).1) hne h1
  rw [h2] at h3
  injection h3 with h3
  exact ⟨h3, by rw [h3]⟩

/-- The file produced by merging `["https://a"]` into `["# note\n"]`. -/
def c7Out : List String :=
  ["# note\n", "\n", "# Auto-updated URLs from Naver News Economy section\n",
   "https://a\n"]

/-- C7 witness: a concrete store and URL list, merged twice. -/
theorem merger_idempotent_preserved_witness :
    c7Out = c7Out ∧
    c7Out.filter (fun l => isBlankLine l || pyStartsWith (pyStrip l) "#")
      = c7Out.filter (fun l => isBlankLine l || pyStartsWith (pyStrip l) "#") :=
  merger_idempotent_preserved ["https://a"] ["# note\n"] c7Out c7Out
    (by decide) (by decide) (by decide) (by decide)

/-! ### Claim C10: merge followed by load round-trips the URL list -/

theorem load_append (a b : List String) :
    load_urls_from_file (a ++ b) = load_urls_from_file a ++ load_urls_from_file b := by
  induction a with
  | nil => rfl
  | cons l t ih =>
      simp only [List.cons_append, load_urls_from_file, List.append_eq]
      by_cases hc : (!(pyStrip l).data.isEmpty && !(pyStartsWith (pyStrip l) "#")) = true
      · rw [if_pos hc, if_pos hc, ih, List.append_assoc]
      · rw [if_neg hc, if_neg hc, ih]

theorem load_nil_of_comment_blank {d : List String}
    (h : ∀ l ∈ d, isBlankLine l = true ∨ pyStartsWith (pyStrip l) "#" = true) :
    load_urls_from_file d = [] := by
  induction d with
  | nil => rfl
  | cons l t ih =>
      have hcond : (!(pyStrip l).data.isEmpty && !(pyStartsWith (pyStrip l) "#")) = false := by
        rcases h l (List.mem_cons_self l t) with hb | hc
        · rw [isBlankLine] at hb
          rw [hb]
          rfl
        · rw [hc]
          simp
      simp only [load_urls_from_file, hcond, Bool.false_eq_true, if_false]
      exact ih fun x hx => h x (List.mem_cons_of_mem l hx)

theorem pyJoin_comma_wsp_free : ∀ (urls : List String),
    (∀ u ∈ urls, ∀ c ∈ u.data, wsp c = false) →
    ∀ c ∈ (pyJoin "," urls).data, wsp c = false := by
  intro urls
  induction urls with
  | nil => intro _ c hc; cases hc
  | cons u t ih =>
      intro h c hc
      cases t with
      | nil =>
          have hdata : (pyJoin "," [u]).data = u.data := by
            show List.intercalate (",".data) [u.data] = u.data
            exact intercalate_single _ _
          rw [hdata] at hc
          exact h u (List.mem_cons_self u []) c hc
      | cons v t' =>
          have hdata : (pyJoin "," (u :: v :: t')).data
              = u.data ++ ([','] ++ (pyJoin "," (v :: t')).data) := by
            show List.intercalate (",".data) (u.data :: (v :: t').map String.data) = _
            rw [List.map_cons, intercalate_cons_cons, List.append_assoc]
            rfl
          rw [hdata] at hc
          rcases List.mem_append.mp hc with h1 | h1
          · exact h u (List.mem_cons_self u (v :: t')) c h1
          · rcases List.mem_append.mp h1 with h2 | h2
            · rw [List.mem_singleton.mp h2]; decide
            · exact ih (fun x hx => h x (List.mem_cons_of_mem u hx)) c h2

theorem url_head_h {x : String}
    (hx : pyStartsWith x "http://" = true ∨ pyStartsWith x "https://" = true) :
    x.data.head? = some 'h' := by
  rcases hx with h | h
  · obtain ⟨q, hq⟩ := pyStartsWith_iff.mp h
    rw [← hq]; exact head?_append_left (by decide)
  · obtain ⟨q, hq⟩ := pyStartsWith_iff.mp h
    rw [← hq]; exact head?_append_left (by decide)

theorem pySplit_pyJoin {urls : List String} (hne : urls ≠ [])
    (hc : ∀ u ∈ urls, ',' ∉ u.data) :
    pySplitChar ',' (pyJoin "," urls) = urls := by
  have h1 : (List.intercalate [','] (urls.map String.data)).splitOn ',' = urls.map String.data :=
    List.splitOn_intercalate (urls.map String.data) ','
      (by
        intro l hl
        obtain ⟨u, hu, rfl⟩ := List.mem_map.mp hl
        exact hc u hu)
      (by
        intro h0
        exact hne (List.map_eq_nil_iff.mp h0))
  show (((pyJoin "," urls).data.splitOn ',').map fun l => (⟨l⟩ : String)) = urls
  have hdata : (pyJoin "," urls).data = List.intercalate [','] (urls.map String.data) := rfl
  rw [hdata, h1, List.map_map]
  have : ∀ u ∈ urls, ((fun l => (⟨l⟩ : String)) ∘ String.data) u = id u :=
    fun u _ => mk_data_eta u
  rw [List.map_congr_left this, List.map_id]

/-- Loading the single data line the merger writes recovers the URL list. -/
theorem load_url_line (urls : List String) (hne : urls ≠ [])
    (hclean : ∀ u ∈ urls,
      (pyStartsWith u "http://" = true ∨ pyStartsWith u "https://" = true) ∧
      (∀ c ∈ u.data, wsp c = false) ∧ ',' ∉ u.data) :
    load_urls_from_file [pyJoin "," urls ++ "\n"] = urls := by
  obtain ⟨u, rest, rfl⟩ : ∃ u rest, urls = u :: rest := by
    cases urls with
    | nil => cases hne rfl
    | cons u rest => exact ⟨u, rest, rfl⟩
  have hwsf : ∀ c ∈ (pyJoin "," (u :: rest)).data, wsp c = false :=
    pyJoin_comma_wsp_free _ fun x hx => (hclean x hx).2.1
  obtain ⟨tl, htl⟩ := pyJoin_cons_data "," u rest
  have hhead : (pyJoin "," (u :: rest)).data.head? = some 'h' := by
    rw [htl]
    cases hd : u.data with
    | nil =>
        have := url_head_h (hclean u (List.mem_cons_self u rest)).1
        rw [hd] at this; cases this
    | cons a q =>
        have := url_head_h (hclean u (List.mem_cons_self u rest)).1
        rw [hd] at this
        injection this with this
        rw [List.cons_append, this]
        rfl

  have hJne : (pyJoin "," (u :: rest)).data ≠ [] := by
    intro h0
    rw [h0] at hhead
    cases hhead
  have hstripJ : pyStrip (pyJoin "," (u :: rest) ++ "\n") = pyJoin "," (u :: rest) := by
    apply String.ext
    show stripData (pyJoin "," (u :: rest) ++ "\n").data = _
    have hnl : (pyJoin "," (u :: rest) ++ "\n").data
        = (pyJoin "," (u :: rest)).data ++ ['\n'] := by
      rw [String.data_append]
    rw [hnl]
    exact stripData_clean_newline _ hwsf hJne
  have hcond : (!(pyStrip (pyJoin "," (u :: rest) ++ "\n")).data.isEmpty
      && !(pyStartsWith (pyStrip (pyJoin "," (u :: rest) ++ "\n")) "#")) = true := by
    rw [hstripJ, isEmpty_false_of_head hhead,
      pyStartsWith_false_of_head_ne (c := '#') hhead (by decide) (by decide)]
    rfl
  simp only [load_urls_from_file, hcond, if_pos, if_true]
  rw [hstripJ, List.append_nil]
  rw [pySplit_pyJoin hne fun x hx => (hclean x hx).2.2]
  have hx_strip : ∀ x ∈ u :: rest, pyStrip x = x := fun x hx =>
    String.ext (stripData_eq_self_of_clean ((hclean x hx).2.1))
  have hx_ne : ∀ x ∈ u :: rest, x.data.isEmpty = false := fun x hx =>
    isEmpty_false_of_head (url_head_h (hclean x hx).1)
  have hfilter : (u :: rest).filter (fun x => !(pyStrip x).data.isEmpty) = u :: rest :=
    List.filter_eq_self.mpr fun x hx => by
      rw [hx_strip x hx, hx_ne x hx]
      rfl
  rw [hfilter]
  have : ∀ x ∈ u :: rest, pyStrip x = id x := fun x hx => hx_strip x hx
  rw [List.map_congr_left this, List.map_id]

/-- C10: if every URL is scheme-carrying, whitespace-free and comma-free,
and the existing store consists only of blank lines, comments,
marker-containing lines and scheme-carrying data lines, then merging and
re-loading returns exactly the original URL list, in order. -/
theorem merge_then_load (urls existing out : List String) (hne : urls ≠ [])
    (hclean : ∀ u ∈ urls,
      (pyStartsWith u "http://" = true ∨ pyStartsWith u "https://" = true) ∧
      (∀ c ∈ u.data, wsp c = false) ∧ ',' ∉ u.data)
    (hex : ∀ l ∈ existing, isBlankLine l = true ∨ pyStartsWith (pyStrip l) "#" = true ∨
        pyContains autoUpdateMarker (pyStrip l) = true ∨
        pyContains "http://" (pyStrip l) = true ∨ pyContains "https://" (pyStrip l) = true)
    (h : update_daily_urls_file urls existing = Option.some out) :
    load_urls_from_file out = urls := by
  rw [update_eq_some existing hne] at h
  injection h with h
  rw [← h]
  set D := dropTrailingBlanks (existing.filter keepLine) with hD
  have hDload : load_urls_from_file D = [] := by
    apply load_nil_of_comment_blank
    intro l hl
    have hmem : l ∈ existing.filter keepLine :=
      (dropTrailingBlanks_prefix_self _).sublist.subset hl
    have hkeep : keepLine l = true := List.of_mem_filter hmem
    have hlex : l ∈ existing := List.mem_of_mem_filter hmem
    rcases hex l hlex with hb | hc | hm | hs | hs
    · exact Or.inl hb
    · exact Or.inr hc
    · rw [keepLine_false_of_marker hm] at hkeep; cases hkeep
    · by_cases hb2 : isBlankLine l = true
      · exact Or.inl hb2
      · by_cases hc2 : pyStartsWith (pyStrip l) "#" = true
        · exact Or.inr hc2
        · by_cases hm2 : pyContains autoUpdateMarker (pyStrip l) = true
          · rw [keepLine_false_of_marker hm2] at hkeep; cases hkeep
          · rw [keepLine_false_of_scheme (Or.inl hs) (Bool.eq_false_iff.mpr hb2)
              (Bool.eq_false_iff.mpr hc2) (Bool.eq_false_iff.mpr hm2)] at hkeep
            cases hkeep
    · by_cases hb2 : isBlankLine l = true
      · exact Or.inl hb2
      · by_cases hc2 : pyStartsWith (pyStrip l) "#" = true
        · exact Or.inr hc2
        · by_cases hm2 : pyContains autoUpdateMarker (pyStrip l) = true
          · rw [keepLine_false_of_marker hm2] at hkeep; cases hkeep
          · rw [keepLine_false_of_scheme (Or.inr hs) (Bool.eq_false_iff.mpr hb2)
              (Bool.eq_false_iff.mpr hc2) (Bool.eq_false_iff.mpr hm2)] at hkeep
            cases hkeep
  have hBload : load_urls_from_file (blankSep D) = [] := by
    by_cases hD0 : D.isEmpty = true
    · have hB : blankSep D = [] := by simp [blankSep, hD0]
      rw [hB]
      rfl
    · simp only [blankSep, hD0, Bool.false_eq_true, if_false]
      decide
  have hsplit : ["# " ++ autoUpdateMarker ++ "\n", pyJoin "," urls ++ "\n"]
      = ["# " ++ autoUpdateMarker ++ "\n"] ++ [pyJoin "," urls ++ "\n"] := rfl
  rw [load_append, load_append, hsplit, load_append, hDload, hBload]
  have hMload : load_urls_from_file ["# " ++ autoUpdateMarker ++ "\n"] = [] := by decide
  rw [hMload, load_url_line urls hne hclean]
  rfl

/-- C10 witness: a store of comments, blanks and stale data lines, merged
with two clean URLs and re-loaded. -/
theorem merge_then_load_witness :
    load_urls_from_file
        ["# keep\n", "\n", "# Auto-updated URLs from Naver News Economy section\n",
          "https://news.naver.com/article/1,https://b\n"]
      = ["https://news.naver.com/article/1", "https://b"] :=
  merge_then_load ["https://news.naver.com/article/1", "https://b"]
    ["# keep\n", "\n", "https://old\n"] _ (by decide) (by decide) (by decide) (by decide)

end Podcastify
